import Mathlib

/-!
Verification of the solaris in-memory vector database core.

The definitions below are a shallow embedding of the Rust sources:
  * `src/utils/distance.rs`   — distance kernels,
  * `src/flat_index.rs`       — brute-force cosine index,
  * `src/utils/filter.rs`     — metadata filter evaluation,
  * `src/utils/validation.rs` — input validation,
  * `src/storage/memory_storage.rs` — the document store,
  * `src/index/hnsw.rs`       — the HNSW graph index,
  * `src/untitled.rs`         — the collection coordinator.

Modelling conventions:
  * `f32` values are embedded as exact rationals `ℚ`.  The claims under
    study depend on comparisons and on exactly-representable values
    (0, 1, small integers), not on rounding.
  * `f32::INFINITY` (used as an initializer in the neighbor-selection
    heuristic) is embedded by the three-valued type `FQ` below.
  * `f32::sqrt` (needed by the cosine and Euclidean kernels) is not
    rational; kernels that use it take the square-root function as an
    explicit parameter.  The claims about those kernels only constrain
    the zero case.
  * `HashMap<String, _>` is embedded as an association list with
    insert-replaces semantics; `HashSet<String>` as a `List String`.
  * `BinaryHeap<SearchCandidate>` is embedded as an unordered list with
    explicit max/min extraction.  The source stores negated distances in
    the frontier heap to emulate a min-heap with a max-heap; the
    embedding stores the true distance and extracts the minimum.
  * the thread-local RNG draw (`get_random_level`) and the wall-clock
    read (`SystemTime::now`) are passed in as explicit arguments.
-/

namespace Solaris

/-- Vectors (`type Vector = Vec<f32>` in `src/types.rs`). -/
abbrev Vec' := List ℚ

/-! ## Association-list embedding of `HashMap<String, α>` -/

/-- `HashMap::get`. -/
def mapFind? {α : Type} (l : List (String × α)) (id : String) : Option α :=
  (l.find? (fun p => p.1 = id)).map (·.2)

/-- `HashMap::insert` (replaces an existing binding, otherwise appends). -/
def mapInsert {α : Type} (l : List (String × α)) (id : String) (a : α) :
    List (String × α) :=
  if (l.find? (fun p => p.1 = id)).isSome then
    l.map (fun p => if p.1 = id then (id, a) else p)
  else l ++ [(id, a)]

/-- Mutation through `HashMap::get_mut`: apply `f` to the value bound to
`id`, if any. -/
def mapUpdate {α : Type} (l : List (String × α)) (id : String) (f : α → α) :
    List (String × α) :=
  l.map (fun p => if p.1 = id then (p.1, f p.2) else p)

/-- `HashMap::remove` (the returned value is recovered with `mapFind?`). -/
def mapRemove {α : Type} (l : List (String × α)) (id : String) :
    List (String × α) :=
  l.filter (fun p => ¬ (p.1 = id))

theorem mapFind?_mapUpdate_self {α : Type} (l : List (String × α)) (id : String)
    (f : α → α) : mapFind? (mapUpdate l id f) id = (mapFind? l id).map f := by
  induction l with
  | nil => rfl
  | cons p l ih =>
    by_cases h : p.1 = id
    · simp [mapFind?, mapUpdate, List.find?_cons, h]
    · simpa [mapFind?, mapUpdate, List.find?_cons, h] using ih

theorem mapFind?_mapUpdate_ne {α : Type} (l : List (String × α)) (id id' : String)
    (f : α → α) (h : id' ≠ id) :
    mapFind? (mapUpdate l id f) id' = mapFind? l id' := by
  induction l with
  | nil => rfl
  | cons p l ih =>
    by_cases hp : p.1 = id
    · have h2 : ¬ (id = id') := fun hc => h hc.symm
      simpa [mapFind?, mapUpdate, List.find?_cons, hp, h2] using ih
    · by_cases hp' : p.1 = id'
      · simp [mapFind?, mapUpdate, List.find?_cons, hp, hp', h]
      · simpa [mapFind?, mapUpdate, List.find?_cons, hp, hp'] using ih

theorem mapFind?_mapRemove_self {α : Type} (l : List (String × α)) (id : String) :
    mapFind? (mapRemove l id) id = none := by
  induction l with
  | nil => rfl
  | cons p l ih =>
    by_cases h : p.1 = id
    · simp [mapRemove, h] at ih ⊢; exact ih
    · simp only [mapFind?, mapRemove] at ih ⊢
      simp [List.filter_cons, h, List.find?_cons] at ih ⊢

theorem mapRemove_of_find?_eq_none {α : Type} (l : List (String × α)) (id : String)
    (h : mapFind? l id = none) : mapRemove l id = l := by
  induction l with
  | nil => rfl
  | cons p l ih =>
    by_cases hp : p.1 = id
    · simp [mapFind?, List.find?_cons, hp] at h
    · have h' : mapFind? l id = none := by
        simpa [mapFind?, List.find?_cons, hp] using h
      simp [mapRemove, hp] at ih ⊢
      exact ih h'

/-! ## Extended rationals

`FQ` embeds the `f32` values that actually arise in the neighbor-selection
heuristic: finite numbers plus the two infinities used as initializers.
No NaN can arise there (infinity minus infinity is never computed because
the subtrahend is always finite). -/

inductive FQ : Type where
  | ninf : FQ
  | fin : ℚ → FQ
  | pinf : FQ
deriving DecidableEq

/-- The `f32` strict order `<` restricted to `FQ`. -/
def FQ.blt : FQ → FQ → Bool
  | _, .ninf => false
  | .ninf, _ => true
  | .fin a, .fin b => decide (a < b)
  | .fin _, .pinf => true
  | .pinf, _ => false

/-- `f32::min` of an `FQ` accumulator with a finite value
(`min_distance_to_selected.min(distance)` in the source). -/
def FQ.minFin (m : FQ) (d : ℚ) : FQ :=
  if FQ.blt (.fin d) m then .fin d else m

/-- Subtraction `dq - md` of an `FQ` from a finite value
(`distance_to_query - min_distance_to_selected` in the source;
finite minus `+∞` is `-∞` in `f32`). -/
def FQ.subFin (dq : ℚ) : FQ → FQ
  | .pinf => .ninf
  | .fin m => .fin (dq - m)
  | .ninf => .pinf

/-! ## Distance kernels (`src/utils/distance.rs`)

Only the kernels the claims mention are embedded.  `dot_product`,
`manhattan_distance` and `dot_product_distance` are exact over `ℚ`;
the cosine kernels take `f32::sqrt` as an explicit parameter `sqrt`
(the claims about them only constrain zero norms, where `sqrt 0 = 0`
holds exactly in `f32`). -/

/-- `dot_product`: `Σ aᵢ·bᵢ` over the zipped operands. -/
def dot_product (a b : Vec') : ℚ :=
  ((a.zip b).map (fun p => p.1 * p.2)).sum

/-- `manhattan_distance`: `Σ |aᵢ − bᵢ|`. -/
def manhattan_distance (a b : Vec') : ℚ :=
  ((a.zip b).map (fun p => |p.1 - p.2|)).sum

/-- `dot_product_distance`: `1 − a·b`. -/
def dot_product_distance (a b : Vec') : ℚ :=
  1 - dot_product a b

/-- The radicand of `norm`: `Σ xᵢ²` (the `map (x*x)` + `sum` part). -/
def normSq (v : Vec') : ℚ :=
  (v.map (fun x => x * x)).sum

/-- `norm`: `sqrt (Σ xᵢ²)`, with `sqrt` passed in. -/
def norm (sqrt : ℚ → ℚ) (v : Vec') : ℚ :=
  sqrt (normSq v)

/-- `cosine_distance` (the main kernel): returns `1.0` when either norm
is zero, else `1 − a·b / (‖a‖·‖b‖)`. -/
def cosine_distance (sqrt : ℚ → ℚ) (a b : Vec') : ℚ :=
  let dp := dot_product a b
  let norm_a := norm sqrt a
  let norm_b := norm sqrt b
  if norm_a = 0 ∨ norm_b = 0 then 1
  else 1 - dp / (norm_a * norm_b)

/-- `BruteIndex::cosine` (`src/flat_index.rs`): cosine *similarity*,
returning `0.0` when either norm is zero, else `a·b / (‖a‖·‖b‖)`. -/
def BruteIndex.cosine (sqrt : ℚ → ℚ) (a b : Vec') : ℚ :=
  let dot := dot_product a b
  let na := norm sqrt a
  let nb := norm sqrt b
  if na = 0 ∨ nb = 0 then 0 else dot / (na * nb)

/-! ## Metadata filters (`src/utils/filter.rs`, types from `src/types.rs`) -/

/-- `type VectorMetadata = Vec<(String, String)>`. -/
abbrev VectorMetadata := List (String × String)

inductive FilterOperation : Type where
  | Equals | NotEquals | Contains | StartsWith | EndsWith
deriving DecidableEq

inductive FilterOperator : Type where
  | And | Or
deriving DecidableEq

structure FilterCondition : Type where
  key : String
  value : String
  operation : FilterOperation
deriving DecidableEq

structure MetadataFilter : Type where
  conditions : List FilterCondition
  operator : FilterOperator
deriving DecidableEq

structure VectorDocument : Type where
  id : String
  vector : Vec'
  metadata : Option VectorMetadata
  timestamp : Nat
deriving DecidableEq

/-- Rust `str::contains` (substring test), on the character level.
UTF-8 is self-synchronizing, so byte-level and character-level substring
occurrence coincide for valid strings. -/
def strContainsSub (s pat : String) : Bool :=
  go pat.data s.data
where
  go (pat : List Char) : List Char → Bool
    | [] => decide (pat = [])
    | c :: cs => pat.isPrefixOf (c :: cs) || go pat cs

/-- `get_metadata_value`: first pair whose key matches. -/
def get_metadata_value (metadata : VectorMetadata) (key : String) :
    Option String :=
  (metadata.find? (fun p => p.1 = key)).map (·.2)

/-- `evaluate_condition`. -/
def evaluate_condition (document : VectorDocument)
    (condition : FilterCondition) : Bool :=
  match document.metadata with
  | some metadata =>
    match get_metadata_value metadata condition.key with
    | some value =>
      match condition.operation with
      | .Equals => decide (value = condition.value)
      | .NotEquals => decide (value ≠ condition.value)
      | .Contains => strContainsSub value condition.value
      | .StartsWith => value.startsWith condition.value
      | .EndsWith => value.endsWith condition.value
    | none => false
  | none => false

/-- `evaluate_filter`. -/
def evaluate_filter (document : VectorDocument) (filter : MetadataFilter) :
    Bool :=
  if filter.conditions.isEmpty then true
  else
    let results := filter.conditions.map (fun c => evaluate_condition document c)
    match filter.operator with
    | .And => results.all (fun x => x)
    | .Or => results.any (fun x => x)

/-! ## HNSW graph index (`src/index/hnsw.rs`)

The index is embedded with the composite distance function
`fun a b => calculate_distance a b config.metric` abstracted as a field
`dist`, since every kernel call in `hnsw.rs` goes through
`calculate_distance(_, _, self.config.metric)` and the graph algorithms
depend only on the returned values.  The RNG draw of `get_random_level`
is passed to `add_vector` as the explicit argument `level`. -/

structure Node : Type where
  id : String
  vector : Vec'
  connections : List (List String)
  level : Nat
deriving DecidableEq

structure HNSWIndex : Type where
  nodes : List (String × Node)
  entry_point : Option String
  max_level : Nat
  m : Nat
  ef_construction : Nat
  dist : Vec' → Vec' → ℚ

/-- `HNSWIndex::new`. -/
def HNSWIndex.new (m ef_construction : Nat) (dist : Vec' → Vec' → ℚ) :
    HNSWIndex :=
  { nodes := [], entry_point := none, max_level := 0,
    m := m, ef_construction := ef_construction, dist := dist }

/-! `BinaryHeap<SearchCandidate>` embedding.  `Ord` on `SearchCandidate`
compares distances only; pop order among equal distances is unspecified
in the source, so the embedding fixes the first occurrence. -/

/-- `BinaryHeap::peek` on the result heap `w` (max by distance). -/
def heapMax? : List (String × ℚ) → Option (String × ℚ)
  | [] => none
  | c :: cs => some (cs.foldl (fun best x => if best.2 < x.2 then x else best) c)

/-- Minimum extraction from the frontier heap (the source keeps negated
distances there, so its `pop` yields the minimum true distance). -/
def heapMin? : List (String × ℚ) → Option (String × ℚ)
  | [] => none
  | c :: cs => some (cs.foldl (fun best x => if x.2 < best.2 then x else best) c)

/-- `candidates.pop()`: the popped minimum plus the remaining heap. -/
def heapPopMin (h : List (String × ℚ)) :
    Option ((String × ℚ) × List (String × ℚ)) :=
  (heapMin? h).map (fun c => (c, h.erase c))

/-- The mutable state of `search_layer`'s loop. -/
structure LoopState : Type where
  visited : List String
  candidates : List (String × ℚ)
  w : List (String × ℚ)
deriving DecidableEq

/-- The body of `search_layer`'s inner `for neighbor_id in
&current_node.connections[level]` loop. -/
def expandNeighbor (idx : HNSWIndex) (query : Vec') (num_closest : Nat)
    (st : LoopState) (neighbor_id : String) : LoopState :=
  if neighbor_id ∈ st.visited then st
  else
    let st1 : LoopState := { st with visited := neighbor_id :: st.visited }
    match mapFind? idx.nodes neighbor_id with
    | none => st1
    | some neighbor_node =>
      let distance := idx.dist query neighbor_node.vector
      if st1.w.length < num_closest then
        { st1 with candidates := (neighbor_id, distance) :: st1.candidates,
                   w := (neighbor_id, distance) :: st1.w }
      else
        match heapMax? st1.w with
        | some furthest =>
          if distance < furthest.2 then
            { st1 with candidates := (neighbor_id, distance) :: st1.candidates,
                       w := (neighbor_id, distance) :: st1.w.erase furthest }
          else st1
        | none => st1

/-- Expansion of the popped node: iterate its layer-`level` neighbor
list (guarded by `level < connections.len()`). -/
def expandCurrent (idx : HNSWIndex) (query : Vec') (num_closest level : Nat)
    (st : LoopState) (current_id : String) : LoopState :=
  match mapFind? idx.nodes current_id with
  | some current_node =>
    if level < current_node.connections.length then
      (current_node.connections.getD level []).foldl
        (expandNeighbor idx query num_closest) st
    else st
  | none => st

/-- `search_layer`'s `while let Some(current) = candidates.pop()` loop.
The returned `Bool` records whether the loop ended through the early
`break` (popped distance strictly above the worst result) rather than by
exhausting the frontier.  Termination is by explicit fuel; each
iteration pops one frontier entry and the total number of pushes is
bounded by `entry_points.length + nodes.length`, so the fuel chosen in
`search_layer` below is never exhausted. -/
def searchLoopGo (idx : HNSWIndex) (query : Vec') (num_closest level : Nat) :
    Nat → LoopState → LoopState × Bool
  | 0, st => (st, false)
  | fuel + 1, st =>
    match heapPopMin st.candidates with
    | none => (st, false)
    | some (current, rest) =>
      let st1 : LoopState := { st with candidates := rest }
      match heapMax? st1.w with
      | some furthest =>
        if furthest.2 < current.2 then (st1, true)
        else
          searchLoopGo idx query num_closest level fuel
            (expandCurrent idx query num_closest level st1 current.1)
      | none =>
        searchLoopGo idx query num_closest level fuel
          (expandCurrent idx query num_closest level st1 current.1)

/-- The initialization over `entry_points` (both heaps and the visited
set are seeded with every entry point found in the node table). -/
def initSearchState (idx : HNSWIndex) (query : Vec')
    (entry_points : List String) : LoopState :=
  entry_points.foldl (fun st ep =>
    match mapFind? idx.nodes ep with
    | some node =>
      let distance := idx.dist query node.vector
      { visited := ep :: st.visited,
        candidates := (ep, distance) :: st.candidates,
        w := (ep, distance) :: st.w }
    | none => st) ⟨[], [], []⟩

/-- Fuel that the loop can never exhaust (see `searchLoopGo`). -/
def searchLayerFuel (idx : HNSWIndex) (entry_points : List String) : Nat :=
  idx.nodes.length + entry_points.length + 1

/-- The complete run of `search_layer`'s loop: final state plus the
early-`break` flag. -/
def searchLayerRun (idx : HNSWIndex) (query : Vec') (entry_points : List String)
    (num_closest level : Nat) : LoopState × Bool :=
  searchLoopGo idx query num_closest level
    (searchLayerFuel idx entry_points)
    (initSearchState idx query entry_points)

/-- `search_layer`: returns the IDs in the result heap `w`. -/
def search_layer (idx : HNSWIndex) (query : Vec') (entry_points : List String)
    (num_closest level : Nat) : List String :=
  ((searchLayerRun idx query entry_points num_closest level).1).w.map Prod.fst

/-- `Iterator::enumerate`. -/
def enumerate {α : Type} : Nat → List α → List (Nat × α)
  | _, [] => []
  | k, a :: as => (k, a) :: enumerate (k + 1) as

/-- The score of one candidate in `select_neighbors_heuristic`:
`d(q,x)` while `selected` is empty, else
`d(q,x) − min_{y ∈ selected} d(x,y)` (the min starts at `f32::INFINITY`
and skips selected IDs missing from the node table). -/
def scoreOf (idx : HNSWIndex) (query : Vec') (selected : List String)
    (candidate_node : Node) : FQ :=
  let distance_to_query := idx.dist query candidate_node.vector
  let min_distance_to_selected := selected.foldl (fun acc selected_id =>
      match mapFind? idx.nodes selected_id with
      | some selected_node =>
        acc.minFin (idx.dist candidate_node.vector selected_node.vector)
      | none => acc) FQ.pinf
  if selected.isEmpty then .fin distance_to_query
  else FQ.subFin distance_to_query min_distance_to_selected

/-- The inner `for (idx, candidate_id) in remaining.iter().enumerate()`
loop: fold starting from `best_idx = 0`, `best_score = f32::INFINITY`,
updating on a strictly smaller score, skipping candidates missing from
the node table. -/
def bestIdx (idx : HNSWIndex) (query : Vec') (selected remaining : List String) :
    Nat :=
  ((enumerate 0 remaining).foldl (fun best p =>
    match mapFind? idx.nodes p.2 with
    | some candidate_node =>
      let score := scoreOf idx query selected candidate_node
      if FQ.blt score best.2 then (p.1, score) else best
    | none => best) (0, FQ.pinf)).1

/-- The `while selected.len() < m && !remaining.is_empty()` loop.  Fuel
is the initial length of `remaining`; each iteration removes one
element, so it is never exhausted. -/
def selectLoop (idx : HNSWIndex) (query : Vec') (m : Nat) :
    Nat → List String → List String → List String
  | 0, selected, _ => selected
  | fuel + 1, selected, remaining =>
    if selected.length < m ∧ remaining ≠ [] then
      let bi := bestIdx idx query selected remaining
      selectLoop idx query m fuel (selected ++ [remaining.getD bi ""])
        (remaining.eraseIdx bi)
    else selected

/-- `select_neighbors_heuristic`. -/
def select_neighbors_heuristic (idx : HNSWIndex) (query : Vec')
    (candidates : List String) (m : Nat) : List String :=
  if candidates.length ≤ m then candidates
  else selectLoop idx query m candidates.length [] candidates

/-- `neighbor.connections[lc].push(id)` (the index is in bounds whenever
the source executes the push; `List.set` is a no-op otherwise). -/
def pushConnAt (connections : List (List String)) (lc : Nat) (id : String) :
    List (List String) :=
  connections.set lc ((connections.getD lc []) ++ [id])

/-- `HNSWIndex::add_vector`.  `level` is the value drawn by
`get_random_level`.  The final `self.nodes.insert(id, node)` installs
the *local* `node` value built at the top of the function, whose
neighbor lists were never touched by the construction loop — the
`self.nodes.get_mut(&id)` inside the loop (embedded as `mapUpdate
nodes1 id _` below) finds nothing while `id` is not yet in the table. -/
def add_vector (idx : HNSWIndex) (id : String) (vector : Vec') (level : Nat) :
    HNSWIndex :=
  let node : Node :=
    { id := id, vector := vector,
      connections := List.replicate (level + 1) [], level := level }
  match idx.entry_point with
  | none =>
    { idx with entry_point := some id, max_level := level,
               nodes := mapInsert idx.nodes id node }
  | some ep =>
    -- greedy descent: for lc in (level+1 ..= max_level).rev()
    let current_closest := ((List.range' (level + 1) (idx.max_level - level)).reverse).foldl
      (fun cc lc => search_layer idx vector cc 1 lc) [ep]
    -- layered construction: for lc in (0 ..= level.min(max_level)).rev()
    let st := ((List.range (min level idx.max_level + 1)).reverse).foldl
      (fun (st : List (String × Node) × List String) lc =>
        let idx' := { idx with nodes := st.1 }
        let candidates := search_layer idx' vector st.2 idx.ef_construction lc
        let selected := select_neighbors_heuristic idx' vector candidates idx.m
        let nodes1 := selected.foldl (fun ns neighbor_id =>
            mapUpdate ns neighbor_id (fun neighbor =>
              if lc ≤ neighbor.level then
                { neighbor with connections := pushConnAt neighbor.connections lc id }
              else neighbor)) st.1
        let nodes2 := mapUpdate nodes1 id
          (fun nd => { nd with connections := nd.connections.set lc selected })
        (nodes2, selected))
      (idx.nodes, current_closest)
    let ep_ml : Option String × Nat :=
      if idx.max_level < level then (some id, level)
      else (idx.entry_point, idx.max_level)
    { idx with nodes := mapInsert st.1 id node,
               entry_point := ep_ml.1, max_level := ep_ml.2 }

/-- `HNSWIndex::search`. -/
def search (idx : HNSWIndex) (query : Vec') (k : Nat) (ef : Option Nat) :
    List (String × ℚ) :=
  match idx.entry_point with
  | none => []
  | some ep =>
    let ef := ef.getD (max k 50)
    let current_closest := ((List.range' 1 idx.max_level).reverse).foldl
      (fun cc lc => search_layer idx query cc 1 lc) [ep]
    let candidates := search_layer idx query current_closest ef 0
    let result := candidates.filterMap (fun cid =>
      (mapFind? idx.nodes cid).map (fun node => (cid, idx.dist query node.vector)))
    (result.mergeSort (fun a b => decide (a.2 ≤ b.2))).take k

/-- `HNSWIndex::remove_vector`. -/
def remove_vector (idx : HNSWIndex) (id : String) : Bool × HNSWIndex :=
  match mapFind? idx.nodes id with
  | none => (false, idx)
  | some node =>
    let nodes0 := mapRemove idx.nodes id
    let nodes1 := (List.range (node.level + 1)).foldl (fun ns level =>
        (node.connections.getD level []).foldl (fun ns neighbor_id =>
          mapUpdate ns neighbor_id (fun neighbor =>
            if level < neighbor.connections.length then
              let scrubbed :=
                (neighbor.connections.getD level []).filter (fun x => ¬ (x = id))
              { neighbor with connections := neighbor.connections.set level scrubbed }
            else neighbor)) ns) nodes0
    if idx.entry_point = some id then
      let entry_point := nodes1.head?.map (·.1)
      let max_level := match entry_point with
        | some new_entry =>
          match mapFind? nodes1 new_entry with
          | some new_entry_node => new_entry_node.level
          | none => idx.max_level
        | none => idx.max_level
      (true, { idx with nodes := nodes1, entry_point := entry_point,
                        max_level := max_level })
    else
      (true, { idx with nodes := nodes1 })

/-! ## Validation (`src/utils/validation.rs`) -/

/-- The validation error taxonomy (only the variants reachable from the
embedded functions are listed). -/
inductive ValidationError : Type where
  | DimensionMismatch (expected actual : Nat)
  | EmptyId
  | InvalidValues
  | EmptyMetadataKey
  | IdTooLong
  | TooManyMetadataEntries
deriving DecidableEq

/-- `f32::is_finite`: every rational in the embedding stands for a
finite float, so the check is identically true; the branch is kept to
mirror the source. -/
def f32IsFinite (_ : ℚ) : Bool := true

/-- `validate_vector`. -/
def validate_vector (vector : Vec') (expected_dimension : Nat) :
    Except ValidationError Unit :=
  if vector.length ≠ expected_dimension then
    .error (.DimensionMismatch expected_dimension vector.length)
  else if vector.any (fun v => ¬ f32IsFinite v) then .error .InvalidValues
  else .ok ()

/-- `validate_vector_id` (`str::len` counts bytes). -/
def validate_vector_id (id : String) : Except ValidationError Unit :=
  if id.isEmpty then .error .EmptyId
  else if 256 < id.utf8ByteSize then .error .IdTooLong
  else .ok ()

/-- `validate_vector_document`. -/
def validate_vector_document (document : VectorDocument)
    (expected_dimension : Nat) : Except ValidationError Unit :=
  match validate_vector_id document.id with
  | .error e => .error e
  | .ok _ =>
    match validate_vector document.vector expected_dimension with
    | .error e => .error e
    | .ok _ =>
      match document.metadata with
      | some metadata =>
        if 100 < metadata.length then .error .TooManyMetadataEntries
        else if metadata.any (fun p => p.1.isEmpty) then .error .EmptyMetadataKey
        else .ok ()
      | none => .ok ()

/-! ## Document store (`src/storage/memory_storage.rs`)

The store is its `HashMap<String, VectorDocument>`; the wall-clock read
in `store` is the explicit argument `timestamp`. -/

abbrev StorageData := List (String × VectorDocument)

/-- `MemoryStorage::store`. -/
def MemoryStorage.store (data : StorageData) (id : String) (vector : Vec')
    (metadata : Option VectorMetadata) (timestamp : Nat) : StorageData :=
  mapInsert data id
    { id := id, vector := vector, metadata := metadata, timestamp := timestamp }

/-- `MemoryStorage::remove`: whether the ID existed, plus the new table. -/
def MemoryStorage.remove (data : StorageData) (id : String) :
    Bool × StorageData :=
  ((mapFind? data id).isSome, mapRemove data id)

/-- `MemoryStorage::update_metadata`. -/
def MemoryStorage.update_metadata (data : StorageData) (id : String)
    (metadata : Option VectorMetadata) : Bool × StorageData :=
  match mapFind? data id with
  | some _ =>
    (true, mapUpdate data id (fun document => { document with metadata := metadata }))
  | none => (false, data)

/-! ## Collection coordinator (`src/untitled.rs`, `Collection`) -/

structure Collection : Type where
  dimension : Nat
  storage : StorageData
  index : HNSWIndex

/-- `Collection::insert_vector`.  `now` is the wall-clock read and
`level` the RNG draw consumed by the index. -/
def Collection.insert_vector (c : Collection) (id : String) (vector : Vec')
    (metadata : Option VectorMetadata) (now level : Nat) :
    Except ValidationError Collection :=
  let document : VectorDocument :=
    { id := id, vector := vector, metadata := metadata, timestamp := now }
  match validate_vector_document document c.dimension with
  | .error e => .error e
  | .ok _ =>
    let storage := MemoryStorage.store c.storage id vector metadata now
    let index := add_vector c.index id vector level
    .ok { c with storage := storage, index := index }

/-- `Collection::delete_vector`: remove from the store; only on success
remove from the index. -/
def Collection.delete_vector (c : Collection) (id : String) :
    Bool × Collection :=
  let rem := MemoryStorage.remove c.storage id
  if rem.1 then
    let (_, index) := remove_vector c.index id
    (true, { c with storage := rem.2, index := index })
  else (false, { c with storage := rem.2 })

/-- `Collection::count` (via `MemoryStorage::count`). -/
def Collection.count (c : Collection) : Nat :=
  c.storage.length

/-! ## Spec-side definitions

The following definitions phrase parts of the specification in its own
words; they are compared against the source-derived definitions above
(refinement-style), never used inside them. -/

/-- Spec wording: "find the first pair whose key matches" (direct
recursion, to be compared with the `find?`-based `get_metadata_value`). -/
def specFirstValueForKey : VectorMetadata → String → Option String
  | [], _ => none
  | (k, v) :: rest, key => if k = key then some v else specFirstValueForKey rest key

/-- Spec wording: "compare its value string per the op". -/
def specOpCompare (op : FilterOperation) (value condValue : String) : Bool :=
  match op with
  | .Equals => decide (value = condValue)
  | .NotEquals => decide (value ≠ condValue)
  | .Contains => strContainsSub value condValue
  | .StartsWith => value.startsWith condValue
  | .EndsWith => value.endsWith condValue

theorem get_metadata_value_eq_spec (metadata : VectorMetadata) (key : String) :
    get_metadata_value metadata key = specFirstValueForKey metadata key := by
  induction metadata with
  | nil => rfl
  | cons p rest ih =>
    by_cases h : p.1 = key
    · simp [get_metadata_value, specFirstValueForKey, List.find?_cons, h]
    · simpa [get_metadata_value, specFirstValueForKey, List.find?_cons, h] using ih

/-! ## Claim C6 — cosine kernels on zero-norm operands -/

/-- C6: for equal-length vectors with at least one zero-norm operand the
main cosine kernel returns distance `1.0` while the brute (flat) index's
cosine returns similarity `0.0`. -/
theorem C6_cosine_zero_norm (sqrt : ℚ → ℚ) (a b : Vec')
    (_hlen : a.length = b.length)
    (hz : norm sqrt a = 0 ∨ norm sqrt b = 0) :
    cosine_distance sqrt a b = 1 ∧ BruteIndex.cosine sqrt a b = 0 := by
  constructor
  · simp only [cosine_distance]
    rw [if_pos hz]
  · simp only [BruteIndex.cosine]
    rw [if_pos hz]

unseal Rat.add Rat.sub Rat.mul in
/-- Witness for C6 at `a = [0,0]`, `b = [1,2]` with `sqrt` taken to be
the identity (only `sqrt 0 = 0` matters). -/
theorem C6_cosine_zero_norm_witness :
    norm (fun x => x) [(0 : ℚ), 0] = 0 ∧
    cosine_distance (fun x => x) [(0 : ℚ), 0] [1, 2] = 1 ∧
    BruteIndex.cosine (fun x => x) [(0 : ℚ), 0] [1, 2] = 0 := by
  refine ⟨by decide, ?_⟩
  exact C6_cosine_zero_norm (fun x => x) [0, 0] [1, 2] (by decide)
    (Or.inl (by decide))

/-! ## Claim C7 — filter condition evaluation and combination

The claim's combination sentence fails on the empty condition list with
the `Or` operator: `evaluate_filter` returns `true` there (early return
on `conditions.is_empty()`), whereas "any" of zero results is `false`.
The amended claim makes the empty-filter short-circuit explicit. -/

/-- C7 counterexample: a filter with no conditions and operator `Or`
evaluates to `true`, but the `Or`-combination ("any") of its (zero)
condition results is `false`. -/
theorem C7_empty_or_filter_counterexample :
    evaluate_filter
      { id := "d", vector := [], metadata := none, timestamp := 0 }
      { conditions := [], operator := .Or } = true ∧
    ((([] : List FilterCondition)).map (fun c =>
      evaluate_condition
        { id := "d", vector := [], metadata := none, timestamp := 0 } c)).any
      (fun x => x) = false := by
  exact ⟨rfl, rfl⟩

/-- C7 (amended): condition evaluation finds the first metadata pair
with a matching key and compares per the op, yielding `false` when no
pair matches or metadata is absent; a filter with a non-empty condition
list combines the results with And (all) / Or (any), while a filter with
no conditions evaluates to `true` regardless of the operator. -/
theorem C7_filter_evaluation_spec (document : VectorDocument)
    (condition : FilterCondition) (filter : MetadataFilter) :
    (evaluate_condition document condition =
      match document.metadata with
      | none => false
      | some metadata =>
        match specFirstValueForKey metadata condition.key with
        | none => false
        | some value => specOpCompare condition.operation value condition.value) ∧
    (evaluate_filter document filter =
      if filter.conditions = [] then true
      else
        match filter.operator with
        | .And => (filter.conditions.map (fun c => evaluate_condition document c)).all
            (fun x => x)
        | .Or => (filter.conditions.map (fun c => evaluate_condition document c)).any
            (fun x => x)) := by
  constructor
  · match hmd : document.metadata with
    | none => simp [evaluate_condition, hmd]
    | some metadata =>
      simp only [evaluate_condition, hmd, ← get_metadata_value_eq_spec]
      match hval : get_metadata_value metadata condition.key with
      | none => simp
      | some value =>
        cases condition.operation <;> simp [specOpCompare]
  · by_cases hc : filter.conditions = []
    · simp [evaluate_filter, hc]
    · have : filter.conditions.isEmpty = false := by
        simpa [List.isEmpty_iff] using hc
      cases hop : filter.operator <;>
        simp [evaluate_filter, this, hc, hop]

/-! ## Claim C8 — dimension mismatch on insert -/

/-- C8: inserting a vector of the wrong length into a collection (under
a well-formed ID) fails with a dimension-mismatch error; no state is
returned, so store and index are untouched. -/
theorem C8_insert_dimension_mismatch (c : Collection) (id : String)
    (vector : Vec') (metadata : Option VectorMetadata) (now level : Nat)
    (hdim : vector.length ≠ c.dimension)
    (hid1 : id.isEmpty = false)
    (hid2 : id.utf8ByteSize ≤ 256) :
    Collection.insert_vector c id vector metadata now level =
      .error (.DimensionMismatch c.dimension vector.length) := by
  have h2 : ¬ (256 < id.utf8ByteSize) := not_lt.mpr hid2
  simp [Collection.insert_vector, validate_vector_document, validate_vector_id,
        validate_vector, hid1, h2, hdim]

/-- The fresh dimension-4 collection of scenario S1 (config defaults
`m = 16`, `ef_construction = 200`). -/
def freshCollection4 : Collection :=
  { dimension := 4, storage := [], index := HNSWIndex.new 16 200 manhattan_distance }

/-- Witness for C8, scenario S1: inserting `[1,2,3]` into a fresh
dimension-4 collection yields the dimension-mismatch error and the
count stays 0. -/
theorem C8_insert_dimension_mismatch_witness :
    Collection.insert_vector freshCollection4 "v1" [1, 2, 3] none 0 0 =
      .error (.DimensionMismatch 4 3) ∧
    freshCollection4.count = 0 := by
  refine ⟨?_, rfl⟩
  exact C8_insert_dimension_mismatch freshCollection4 "v1" [1, 2, 3] none 0 0
    (by decide) (by decide) (by decide)

/-! ## Claim C9 — delete idempotence -/

/-- C9: for an ID present in the collection the first delete returns
`true`; repeating it returns `false` and leaves the collection (store
and index) unchanged. -/
theorem C9_delete_idempotent (c : Collection) (id : String)
    (h : (mapFind? c.storage id).isSome = true) :
    (Collection.delete_vector c id).1 = true ∧
    (Collection.delete_vector (Collection.delete_vector c id).2 id).1 = false ∧
    (Collection.delete_vector (Collection.delete_vector c id).2 id).2 =
      (Collection.delete_vector c id).2 := by
  have hc1 : Collection.delete_vector c id =
      (true, { c with storage := mapRemove c.storage id,
                      index := (remove_vector c.index id).2 }) := by
    simp [Collection.delete_vector, MemoryStorage.remove, h]
  have hgone : mapFind? (mapRemove c.storage id) id = none :=
    mapFind?_mapRemove_self c.storage id
  have hnoop : mapRemove (mapRemove c.storage id) id = mapRemove c.storage id :=
    mapRemove_of_find?_eq_none _ id hgone
  refine ⟨by rw [hc1], ?_, ?_⟩
  · rw [hc1]
    simp [Collection.delete_vector, MemoryStorage.remove, hgone]
  · rw [hc1]
    simp [Collection.delete_vector, MemoryStorage.remove, hgone, hnoop]

/-- A one-document collection used as a concrete witness. -/
def oneDocCollection : Collection :=
  { dimension := 1,
    storage := [("a", { id := "a", vector := [0], metadata := none, timestamp := 0 })],
    index := add_vector (HNSWIndex.new 16 200 manhattan_distance) "a" [0] 0 }

/-- Witness for C9: deleting `"a"` twice from the one-document
collection yields `true` then `false`, the second delete a no-op. -/
theorem C9_delete_idempotent_witness :
    (Collection.delete_vector oneDocCollection "a").1 = true ∧
    (Collection.delete_vector (Collection.delete_vector oneDocCollection "a").2 "a").1 = false ∧
    (Collection.delete_vector (Collection.delete_vector oneDocCollection "a").2 "a").2 =
      (Collection.delete_vector oneDocCollection "a").2 :=
  C9_delete_idempotent oneDocCollection "a" (by decide)

/-! ## Claim C10 — update_metadata frame property -/

/-- C10: for a present ID `update_metadata` returns `true`, replaces
exactly the metadata field of that document (ID, vector and timestamp
are kept), and leaves every other ID's lookup unchanged; for an absent
ID it returns `false` with the store unchanged. -/
theorem C10_update_metadata_frame (data : StorageData) (id : String)
    (metadata : Option VectorMetadata) :
    (∀ document, mapFind? data id = some document →
      (MemoryStorage.update_metadata data id metadata).1 = true ∧
      mapFind? (MemoryStorage.update_metadata data id metadata).2 id =
        some { document with metadata := metadata } ∧
      (∀ id', id' ≠ id →
        mapFind? (MemoryStorage.update_metadata data id metadata).2 id' =
          mapFind? data id')) ∧
    (mapFind? data id = none →
      MemoryStorage.update_metadata data id metadata = (false, data)) := by
  constructor
  · intro document hdoc
    refine ⟨?_, ?_, ?_⟩
    · simp [MemoryStorage.update_metadata, hdoc]
    · have := mapFind?_mapUpdate_self data id
        (fun document => { document with metadata := metadata })
      simp [MemoryStorage.update_metadata, hdoc, this]
    · intro id' hne
      have := mapFind?_mapUpdate_ne data id id'
        (fun document => { document with metadata := metadata }) hne
      simp [MemoryStorage.update_metadata, hdoc, this]
  · intro hnone
    simp [MemoryStorage.update_metadata, hnone]

/-- A two-document store used as a concrete witness. -/
def twoDocStore : StorageData :=
  [("a", { id := "a", vector := [1], metadata := some [("k", "v")], timestamp := 5 }),
   ("b", { id := "b", vector := [2], metadata := none, timestamp := 6 })]

/-- Witness for C10: updating `"a"`'s metadata in the two-document store
returns `true`, rewrites only the metadata field, and leaves `"b"`'s
lookup untouched; updating the absent `"c"` returns `false` unchanged. -/
theorem C10_update_metadata_frame_witness :
    (MemoryStorage.update_metadata twoDocStore "a" (some [("k", "w")])).1 = true ∧
    mapFind? (MemoryStorage.update_metadata twoDocStore "a" (some [("k", "w")])).2 "a" =
      some { id := "a", vector := [1], metadata := some [("k", "w")], timestamp := 5 } ∧
    mapFind? (MemoryStorage.update_metadata twoDocStore "a" (some [("k", "w")])).2 "b" =
      mapFind? twoDocStore "b" ∧
    MemoryStorage.update_metadata twoDocStore "c" (some [("k", "w")]) =
      (false, twoDocStore) := by
  have h := C10_update_metadata_frame twoDocStore "a" (some [("k", "w")])
  have hd := h.1 { id := "a", vector := [1], metadata := some [("k", "v")], timestamp := 5 }
    (by decide)
  have h2 := C10_update_metadata_frame twoDocStore "c" (some [("k", "w")])
  exact ⟨hd.1, hd.2.1, hd.2.2 "b" (by decide), h2.2 (by decide)⟩

/-! ## Claim C4 — the search_layer loop breaks only when `w` is full

The source's break test (`current_distance > furthest.distance`) does
not mention fullness; fullness at break time is a consequence of the
invariant that, while `w` has never discarded an element, every frontier
entry is also a member of `w`. -/

/-- Invariant carried by `search_layer`'s loop: either every frontier
entry is in the result heap, or the result heap is already full. -/
def fullOrSub (num_closest : Nat) (st : LoopState) : Prop :=
  (∀ c ∈ st.candidates, c ∈ st.w) ∨ num_closest ≤ st.w.length

theorem foldl_min_pick_mem (xs : List (String × ℚ)) (acc : String × ℚ) :
    xs.foldl (fun best x => if x.2 < best.2 then x else best) acc = acc ∨
    xs.foldl (fun best x => if x.2 < best.2 then x else best) acc ∈ xs := by
  induction xs generalizing acc with
  | nil => exact Or.inl rfl
  | cons y ys ih =>
    simp only [List.foldl_cons]
    rcases ih (if y.2 < acc.2 then y else acc) with h | h
    · rw [h]
      by_cases hy : y.2 < acc.2
      · right; rw [if_pos hy]; exact List.mem_cons_self y ys
      · left; rw [if_neg hy]
    · right; exact List.mem_cons_of_mem y h

theorem heapMin?_mem {h : List (String × ℚ)} {c : String × ℚ}
    (hc : heapMin? h = some c) : c ∈ h := by
  match h with
  | [] => simp [heapMin?] at hc
  | x :: xs =>
    simp only [heapMin?, Option.some.injEq] at hc
    rcases foldl_min_pick_mem xs x with h1 | h1
    · rw [← hc, h1]; exact List.mem_cons_self x xs
    · rw [← hc]; exact List.mem_cons_of_mem x h1

theorem foldl_max_pick_le (xs : List (String × ℚ)) (acc : String × ℚ) :
    acc.2 ≤ (xs.foldl (fun best x => if best.2 < x.2 then x else best) acc).2 ∧
    ∀ c ∈ xs, c.2 ≤ (xs.foldl (fun best x => if best.2 < x.2 then x else best) acc).2 := by
  induction xs generalizing acc with
  | nil => exact ⟨le_refl _, by intro c hc; simp at hc⟩
  | cons y ys ih =>
    simp only [List.foldl_cons]
    obtain ⟨h1, h2⟩ := ih (if acc.2 < y.2 then y else acc)
    have hacc : acc.2 ≤ (if acc.2 < y.2 then y else acc).2 := by
      by_cases h : acc.2 < y.2
      · rw [if_pos h]; exact le_of_lt h
      · rw [if_neg h]
    have hy : y.2 ≤ (if acc.2 < y.2 then y else acc).2 := by
      by_cases h : acc.2 < y.2
      · rw [if_pos h]
      · rw [if_neg h]; exact le_of_not_lt h
    refine ⟨hacc.trans h1, ?_⟩
    intro c hc
    rcases List.mem_cons.mp hc with rfl | hc
    · exact hy.trans h1
    · exact h2 c hc

theorem foldl_max_pick_mem (xs : List (String × ℚ)) (acc : String × ℚ) :
    xs.foldl (fun best x => if best.2 < x.2 then x else best) acc = acc ∨
    xs.foldl (fun best x => if best.2 < x.2 then x else best) acc ∈ xs := by
  induction xs generalizing acc with
  | nil => exact Or.inl rfl
  | cons y ys ih =>
    simp only [List.foldl_cons]
    rcases ih (if acc.2 < y.2 then y else acc) with h | h
    · rw [h]
      by_cases hy : acc.2 < y.2
      · right; rw [if_pos hy]; exact List.mem_cons_self y ys
      · left; rw [if_neg hy]
    · right; exact List.mem_cons_of_mem y h

theorem heapMax?_le {w : List (String × ℚ)} {f : String × ℚ}
    (hf : heapMax? w = some f) : ∀ c ∈ w, c.2 ≤ f.2 := by
  match w with
  | [] => simp [heapMax?] at hf
  | x :: xs =>
    simp only [heapMax?, Option.some.injEq] at hf
    intro c hc
    obtain ⟨h1, h2⟩ := foldl_max_pick_le xs x
    rcases List.mem_cons.mp hc with rfl | hc
    · rw [← hf]; exact h1
    · rw [← hf]; exact h2 c hc

theorem heapMax?_mem {w : List (String × ℚ)} {f : String × ℚ}
    (hf : heapMax? w = some f) : f ∈ w := by
  match w with
  | [] => simp [heapMax?] at hf
  | x :: xs =>
    simp only [heapMax?, Option.some.injEq] at hf
    rcases foldl_max_pick_mem xs x with h1 | h1
    · rw [← hf, h1]; exact List.mem_cons_self x xs
    · rw [← hf]; exact List.mem_cons_of_mem x h1

theorem heapPopMin_eq_some {h : List (String × ℚ)} {cur : String × ℚ}
    {rest : List (String × ℚ)} (hp : heapPopMin h = some (cur, rest)) :
    cur ∈ h ∧ rest = h.erase cur := by
  unfold heapPopMin at hp
  cases hm : heapMin? h with
  | none => rw [hm] at hp; simp at hp
  | some c =>
    rw [hm] at hp
    simp only [Option.map_some', Option.some.injEq, Prod.mk.injEq] at hp
    obtain ⟨rfl, rfl⟩ := hp
    exact ⟨heapMin?_mem hm, rfl⟩

theorem expandNeighbor_w_len (idx : HNSWIndex) (query : Vec')
    (num_closest : Nat) (st : LoopState) (nid : String) :
    st.w.length ≤ (expandNeighbor idx query num_closest st nid).w.length := by
  unfold expandNeighbor
  by_cases hv : nid ∈ st.visited
  · simp [hv]
  · simp only [hv, if_false]
    cases hfind : mapFind? idx.nodes nid with
    | none => simp
    | some node =>
      simp only
      by_cases hlen : st.w.length < num_closest
      · simp [hlen]
      · simp only [hlen, if_false]
        cases hmax : heapMax? st.w with
        | none => simp
        | some furthest =>
          simp only
          by_cases hd : idx.dist query node.vector < furthest.2
          · simp only [hd, if_true, List.length_cons]
            rw [List.length_erase_of_mem (heapMax?_mem hmax)]
            have : 1 ≤ st.w.length := List.length_pos.mpr
              (List.ne_nil_of_mem (heapMax?_mem hmax))
            omega
          · simp [hd]

theorem expandNeighbor_inv (idx : HNSWIndex) (query : Vec')
    (num_closest : Nat) (st : LoopState) (nid : String)
    (hinv : fullOrSub num_closest st) :
    fullOrSub num_closest (expandNeighbor idx query num_closest st nid) := by
  rcases hinv with hsub | hfull
  · unfold expandNeighbor
    by_cases hv : nid ∈ st.visited
    · simp only [hv, if_true]; exact Or.inl hsub
    · simp only [hv, if_false]
      cases hfind : mapFind? idx.nodes nid with
      | none => exact Or.inl hsub
      | some node =>
        simp only
        by_cases hlen : st.w.length < num_closest
        · simp only [hlen, if_true]
          left
          intro c hc
          rcases List.mem_cons.mp hc with rfl | hc
          · exact List.mem_cons_self _ _
          · exact List.mem_cons_of_mem _ (hsub c hc)
        · simp only [hlen, if_false]
          cases hmax : heapMax? st.w with
          | none => exact Or.inl hsub
          | some furthest =>
            simp only
            by_cases hd : idx.dist query node.vector < furthest.2
            · simp only [hd, if_true]
              right
              simp only [List.length_cons]
              rw [List.length_erase_of_mem (heapMax?_mem hmax)]
              omega
            · simp only [hd, if_false]; exact Or.inl hsub
  · right
    exact hfull.trans (expandNeighbor_w_len idx query num_closest st nid)

theorem foldl_expandNeighbor_inv (idx : HNSWIndex) (query : Vec')
    (num_closest : Nat) (l : List String) (st : LoopState)
    (hinv : fullOrSub num_closest st) :
    fullOrSub num_closest (l.foldl (expandNeighbor idx query num_closest) st) := by
  induction l generalizing st with
  | nil => exact hinv
  | cons x xs ih =>
    exact ih _ (expandNeighbor_inv idx query num_closest st x hinv)

theorem expandCurrent_inv (idx : HNSWIndex) (query : Vec')
    (num_closest level : Nat) (st : LoopState) (cid : String)
    (hinv : fullOrSub num_closest st) :
    fullOrSub num_closest (expandCurrent idx query num_closest level st cid) := by
  unfold expandCurrent
  cases hfind : mapFind? idx.nodes cid with
  | none => exact hinv
  | some node =>
    simp only
    by_cases hlen : level < node.connections.length
    · simp only [hlen, if_true]
      exact foldl_expandNeighbor_inv idx query num_closest _ st hinv
    · simp only [hlen, if_false]; exact hinv

theorem searchLoopGo_break_full (idx : HNSWIndex) (query : Vec')
    (num_closest level : Nat) :
    ∀ (fuel : Nat) (st : LoopState), fullOrSub num_closest st →
      (searchLoopGo idx query num_closest level fuel st).2 = true →
      num_closest ≤ (searchLoopGo idx query num_closest level fuel st).1.w.length := by
  intro fuel
  induction fuel with
  | zero =>
    intro st _ hbrk
    simp [searchLoopGo] at hbrk
  | succ fuel ih =>
    intro st hinv hbrk
    rcases hpop : heapPopMin st.candidates with _ | ⟨current, rest⟩
    · rw [searchLoopGo, hpop] at hbrk; simp at hbrk
    · obtain ⟨hcur_mem, -⟩ := heapPopMin_eq_some hpop
      have hinv1 : fullOrSub num_closest ({ st with candidates := rest } : LoopState) := by
        rcases hinv with hsub | hfull
        · left
          intro c hc
          obtain ⟨-, hrest⟩ := heapPopMin_eq_some hpop
          have : c ∈ st.candidates := by
            rw [hrest] at hc
            exact List.mem_of_mem_erase hc
          exact hsub c this
        · exact Or.inr hfull
      cases hmax : heapMax? ({ st with candidates := rest } : LoopState).w with
      | none =>
        rw [searchLoopGo, hpop] at hbrk ⊢
        simp only [hmax] at hbrk ⊢
        exact ih _ (expandCurrent_inv idx query num_closest level _ current.1 hinv1) hbrk
      | some furthest =>
        by_cases hlt : furthest.2 < current.2
        · rw [searchLoopGo, hpop] at hbrk ⊢
          simp only [hmax, hlt, if_true] at hbrk ⊢
          rcases hinv with hsub | hfull
          · have hcw : current ∈ st.w := hsub current hcur_mem
            exact absurd hlt (not_lt.mpr (heapMax?_le hmax current hcw))
          · exact hfull
        · rw [searchLoopGo, hpop] at hbrk ⊢
          simp only [hmax, hlt, if_false] at hbrk ⊢
          exact ih _ (expandCurrent_inv idx query num_closest level _ current.1 hinv1) hbrk

theorem initSearchState_cands_eq_w (idx : HNSWIndex) (query : Vec')
    (entry_points : List String) :
    (initSearchState idx query entry_points).candidates =
      (initSearchState idx query entry_points).w := by
  suffices h : ∀ (eps : List String) (st : LoopState), st.candidates = st.w →
      ((eps.foldl (fun st ep =>
        match mapFind? idx.nodes ep with
        | some node =>
          let distance := idx.dist query node.vector
          { visited := ep :: st.visited,
            candidates := (ep, distance) :: st.candidates,
            w := (ep, distance) :: st.w }
        | none => st) st).candidates =
       (eps.foldl (fun st ep =>
        match mapFind? idx.nodes ep with
        | some node =>
          let distance := idx.dist query node.vector
          { visited := ep :: st.visited,
            candidates := (ep, distance) :: st.candidates,
            w := (ep, distance) :: st.w }
        | none => st) st).w) by
    exact h entry_points ⟨[], [], []⟩ rfl
  intro eps
  induction eps with
  | nil => intro st hst; exact hst
  | cons e es ih =>
    intro st hst
    simp only [List.foldl_cons]
    cases hfind : mapFind? idx.nodes e with
    | none => simp only [hfind]; exact ih st hst
    | some node =>
      simp only [hfind]
      exact ih _ (by simp [hst])

/-- C4: whenever `search_layer`'s best-first loop ends through the early
`break` (popped frontier distance strictly above the worst result
distance), the result set `w` already holds at least `num_closest`
elements — equivalently, while `w` is not yet full the loop never breaks
before the frontier is exhausted. -/
theorem C4_search_layer_break_only_when_full (idx : HNSWIndex) (query : Vec')
    (entry_points : List String) (num_closest level : Nat)
    (hbrk : (searchLayerRun idx query entry_points num_closest level).2 = true) :
    num_closest ≤ (searchLayerRun idx query entry_points num_closest level).1.w.length := by
  unfold searchLayerRun at hbrk ⊢
  apply searchLoopGo_break_full idx query num_closest level _ _ _ hbrk
  left
  intro c hc
  rw [initSearchState_cands_eq_w] at hc
  exact hc

/-- A concrete layer-0 graph on which the loop actually breaks early:
`a = [0]` with neighbors `b = [10]` and `c = [3]`, query `[0]`,
`num_closest = 2`.  After expanding `a`, `c` replaces `b` in `w`; popping
the stale `b` (distance 10 > worst 3) fires the break with `w` full. -/
def breakIdx : HNSWIndex :=
  { nodes :=
      [("a", { id := "a", vector := [0], connections := [["b", "c"]], level := 0 }),
       ("b", { id := "b", vector := [10], connections := [[]], level := 0 }),
       ("c", { id := "c", vector := [3], connections := [[]], level := 0 })],
    entry_point := some "a", max_level := 0,
    m := 16, ef_construction := 200, dist := manhattan_distance }

unseal Rat.add Rat.sub Rat.mul in
/-- Witness for C4: on `breakIdx` the loop ends through the break and
the result heap indeed holds `num_closest = 2` elements. -/
theorem C4_search_layer_break_only_when_full_witness :
    (searchLayerRun breakIdx [0] ["a"] 2 0).2 = true ∧
    2 ≤ (searchLayerRun breakIdx [0] ["a"] 2 0).1.w.length :=
  ⟨by decide, C4_search_layer_break_only_when_full breakIdx [0] ["a"] 2 0 (by decide)⟩

/-! ## Claim C3 — top-level search contract -/

/-- C3: `search` returns `[]` on an empty index; `ef` defaults to
`max(k, 50)`; the result holds at most `k` pairs, is sorted by ascending
distance, and every returned distance is recomputed as the collection
metric's distance (`idx.dist`) between the query and the stored node
vector of the returned ID. -/
theorem C3_search_spec (idx : HNSWIndex) (query : Vec') (k : Nat)
    (ef : Option Nat) :
    (idx.entry_point = none → search idx query k ef = []) ∧
    search idx query k none = search idx query k (some (max k 50)) ∧
    (search idx query k ef).length ≤ k ∧
    List.Sorted (fun a b : String × ℚ => a.2 ≤ b.2) (search idx query k ef) ∧
    ∀ p ∈ search idx query k ef, ∃ node, mapFind? idx.nodes p.1 = some node ∧
      p.2 = idx.dist query node.vector := by
  have trans : ∀ (a b c : String × ℚ),
      (fun a b : String × ℚ => decide (a.2 ≤ b.2)) a b →
      (fun a b : String × ℚ => decide (a.2 ≤ b.2)) b c →
      (fun a b : String × ℚ => decide (a.2 ≤ b.2)) a c := by
    intro a b c hab hbc
    simp only [decide_eq_true_eq] at hab hbc ⊢
    exact hab.trans hbc
  have total : ∀ (a b : String × ℚ),
      ((fun a b : String × ℚ => decide (a.2 ≤ b.2)) a b ||
       (fun a b : String × ℚ => decide (a.2 ≤ b.2)) b a) = true := by
    intro a b
    simp only [Bool.or_eq_true, decide_eq_true_eq]
    exact le_total _ _
  refine ⟨?_, ?_, ?_, ?_, ?_⟩
  · intro h; simp [search, h]
  · cases he : idx.entry_point with
    | none => simp [search, he]
    | some ep => simp [search, he]
  · cases he : idx.entry_point with
    | none => simp [search, he]
    | some ep =>
      simp only [search, he]
      rw [List.length_take]
      exact min_le_left _ _
  · cases he : idx.entry_point with
    | none => simp [search, he]
    | some ep =>
      simp only [search, he]
      have hp := List.sorted_mergeSort trans total
        (((search_layer idx query
            (((List.range' 1 idx.max_level).reverse).foldl
              (fun cc lc => search_layer idx query cc 1 lc) [ep])
            (ef.getD (max k 50)) 0)).filterMap (fun cid =>
          (mapFind? idx.nodes cid).map (fun node => (cid, idx.dist query node.vector))))
      have hs : List.Sorted (fun a b : String × ℚ => a.2 ≤ b.2)
          ((((search_layer idx query
            (((List.range' 1 idx.max_level).reverse).foldl
              (fun cc lc => search_layer idx query cc 1 lc) [ep])
            (ef.getD (max k 50)) 0)).filterMap (fun cid =>
          (mapFind? idx.nodes cid).map (fun node => (cid, idx.dist query node.vector)))).mergeSort
            (fun a b : String × ℚ => decide (a.2 ≤ b.2))) :=
        hp.imp (fun h => decide_eq_true_eq.mp h)
      exact hs.sublist (List.take_sublist _ _)
  · cases he : idx.entry_point with
    | none => simp [search, he]
    | some ep =>
      simp only [search, he]
      intro p hp
      have hp1 := List.mem_of_mem_take hp
      rw [List.mem_mergeSort] at hp1
      obtain ⟨cid, hcid, heq⟩ := List.mem_filterMap.mp hp1
      obtain ⟨node, hfind, hmk⟩ := Option.map_eq_some'.mp heq
      refine ⟨node, ?_, ?_⟩
      · rw [← hmk]; exact hfind
      · rw [← hmk]

/-- A two-node layer-0 index used as a concrete search witness. -/
def searchIdx : HNSWIndex :=
  { nodes :=
      [("a", { id := "a", vector := [0], connections := [["b"]], level := 0 }),
       ("b", { id := "b", vector := [5], connections := [["a"]], level := 0 })],
    entry_point := some "a", max_level := 0,
    m := 16, ef_construction := 200, dist := manhattan_distance }

/-- Witness for C3: the empty index yields `[]` (the emptiness
hypothesis discharged by `rfl`); on the concrete `searchIdx` the
`k = 1` search yields at most one pair, sorted. -/
theorem C3_search_spec_witness :
    search (HNSWIndex.new 16 200 manhattan_distance) [1] 2 none = [] ∧
    (search searchIdx [0] 1 none).length ≤ 1 ∧
    List.Sorted (fun a b : String × ℚ => a.2 ≤ b.2) (search searchIdx [0] 1 none) :=
  ⟨(C3_search_spec (HNSWIndex.new 16 200 manhattan_distance) [1] 2 none).1 rfl,
   (C3_search_spec searchIdx [0] 1 none).2.2.1,
   (C3_search_spec searchIdx [0] 1 none).2.2.2.1⟩

/-! ## Claims C1 and C2 — the add_vector installation bug

`add_vector` installs the freshly built `node` into the table only
*after* the construction loop, so the `self.nodes.get_mut(&id)` inside
the loop — the statement meant to set the new node's layer-`lc` list to
`selected` — never finds the ID on a fresh insert.  The installed node
therefore keeps the empty lists it was built with (C1), and
`remove_vector`, which scrubs back-references by walking the removed
node's own lists, then leaves the reciprocal edges pushed into the
neighbors dangling (C2). -/

/-- One-node index: `add_vector` on empty installs `"a" = [0]`
(drawn level 0). -/
def bugIdxA : HNSWIndex :=
  add_vector (HNSWIndex.new 16 200 manhattan_distance) "a" [0] 0

/-- Then `add_vector` of `"b" = [1]` (drawn level 0). -/
def bugIdxB : HNSWIndex :=
  add_vector bugIdxA "b" [1] 0

unseal Rat.add Rat.sub Rat.mul in
/-- C1 (failing evaluation): during the insertion of `"b"` the layer-0
`selected` set is `["a"]` (non-empty), yet after `add_vector` returns
the installed node `"b"` has the empty layer-0 neighbor list `[]` — not
`selected` as the claim states. -/
theorem C1_add_vector_installs_empty_connections :
    select_neighbors_heuristic bugIdxA [1] (search_layer bugIdxA [1] ["a"] 200 0) 16
      = ["a"] ∧
    (mapFind? bugIdxB.nodes "b").map Node.connections = some [[]] :=
  ⟨by decide, by decide⟩

unseal Rat.add Rat.sub Rat.mul in
/-- C2 (failing evaluation): after inserting `"a"` then `"b"` and
removing `"b"`, node `"a"`'s layer-0 list still contains `"b"` although
`"b"` is no longer in the node table — a dangling neighbor reference,
because the removed node's own lists (empty, by the C1 slip) drive the
back-reference scrub. -/
theorem C2_remove_vector_leaves_dangling_reference :
    (mapFind? (remove_vector bugIdxB "b").2.nodes "a").map Node.connections
      = some [["b"]] ∧
    mapFind? (remove_vector bugIdxB "b").2.nodes "b" = none :=
  ⟨by decide, by decide⟩

/-! ## Claim C5 — neighbor-selection heuristic

Spec-side definitions phrasing §4.3.5 of the specification, and the
proof that the source's fold-based selection computes them. -/

/-- Spec-side minimum of a list of scores (`0` for `[]`, which is never
consulted). -/
def specMin : List ℚ → ℚ
  | [] => 0
  | d :: ds => ds.foldl min d

/-- Spec wording "ties are broken by the first occurrence": the index of
the first occurrence of the minimal element. -/
def firstMinIdx : List ℚ → Nat
  | [] => 0
  | [_] => 0
  | q :: q' :: qs => if q ≤ specMin (q' :: qs) then 0 else firstMinIdx (q' :: qs) + 1

theorem foldl_min_min (es : List ℚ) : ∀ (a b : ℚ),
    es.foldl min (min a b) = min a (es.foldl min b) := by
  induction es with
  | nil => intro a b; rfl
  | cons e es ih =>
    intro a b
    simp only [List.foldl_cons]
    rw [min_assoc, ih]

theorem specMin_cons (d : ℚ) (ds : List ℚ) (h : ds ≠ []) :
    specMin (d :: ds) = min d (specMin ds) := by
  match ds, h with
  | e :: es, _ =>
    simp only [specMin, List.foldl_cons]
    exact foldl_min_min es d e

theorem specMin_mem (ds : List ℚ) (h : ds ≠ []) : specMin ds ∈ ds := by
  induction ds with
  | nil => exact absurd rfl h
  | cons d ds ih =>
    by_cases hds : ds = []
    · subst hds; simp [specMin]
    · rw [specMin_cons d ds hds]
      rcases le_total d (specMin ds) with hle | hle
      · rw [min_eq_left hle]; exact List.mem_cons_self d ds
      · rw [min_eq_right hle]; exact List.mem_cons_of_mem d (ih hds)

theorem specMin_le (ds : List ℚ) : ∀ x ∈ ds, specMin ds ≤ x := by
  induction ds with
  | nil => intro x hx; simp at hx
  | cons d ds ih =>
    intro x hx
    by_cases hds : ds = []
    · subst hds
      rcases List.mem_cons.mp hx with rfl | hx
      · simp [specMin]
      · simp at hx
    · rw [specMin_cons d ds hds]
      rcases List.mem_cons.mp hx with rfl | hx
      · exact min_le_left _ _
      · exact (min_le_right _ _).trans (ih x hx)

theorem firstMinIdx_lt_length : ∀ (ds : List ℚ), ds ≠ [] → firstMinIdx ds < ds.length
  | [_], _ => by simp [firstMinIdx]
  | d :: e :: es, _ => by
    simp only [firstMinIdx]
    by_cases hle : d ≤ specMin (e :: es)
    · simp [hle]
    · have h2 := firstMinIdx_lt_length (e :: es) (by simp)
      simp only [hle, if_false, List.length_cons] at h2 ⊢
      omega

/-- Spec-side vector lookup (total; the default is never consulted when
the ID is present). -/
def nodeVec (idx : HNSWIndex) (y : String) : Vec' :=
  ((mapFind? idx.nodes y).map Node.vector).getD []

/-- Spec-side score of candidate `x` against the already selected `S`:
`d(q,x)` when `S` is empty, else `d(q,x) − min_{y ∈ S} d(x,y)`. -/
def specScore (idx : HNSWIndex) (query : Vec') (S : List String) (x : String) : ℚ :=
  if S = [] then idx.dist query (nodeVec idx x)
  else idx.dist query (nodeVec idx x) -
    specMin (S.map (fun y => idx.dist (nodeVec idx x) (nodeVec idx y)))

/-- Spec-side selection loop: "while |S| < m and C is non-empty, pick
the candidate minimizing the score, ties to the first occurrence, and
move it from C to S". -/
def specSelectLoop (idx : HNSWIndex) (query : Vec') (m : Nat) :
    Nat → List String → List String → List String
  | 0, S, _ => S
  | fuel + 1, S, C =>
    if S.length < m ∧ C ≠ [] then
      let i := firstMinIdx (C.map (specScore idx query S))
      specSelectLoop idx query m fuel (S ++ [C.getD i ""]) (C.eraseIdx i)
    else S

/-- Spec-side neighbor selection: `C` unchanged when `|C| ≤ m`, else the
iterative pick. -/
def specSelect (idx : HNSWIndex) (query : Vec') (C : List String) (m : Nat) :
    List String :=
  if C.length ≤ m then C else specSelectLoop idx query m C.length [] C

/-- Presence of every listed ID in the node table. -/
def allPresent (idx : HNSWIndex) (l : List String) : Prop :=
  ∀ x ∈ l, (mapFind? idx.nodes x).isSome = true

theorem FQ.minFin_fin (a d : ℚ) : FQ.minFin (.fin a) d = .fin (min a d) := by
  simp only [FQ.minFin, FQ.blt]
  by_cases h : d < a
  · simp [h, min_eq_right h.le]
  · simp [h, min_eq_left (not_lt.mp h)]

theorem selFold_fin (idx : HNSWIndex) (xv : Vec') :
    ∀ (S : List String) (a : ℚ), allPresent idx S →
    (S.foldl (fun acc selected_id =>
        match mapFind? idx.nodes selected_id with
        | some selected_node => acc.minFin (idx.dist xv selected_node.vector)
        | none => acc) (FQ.fin a)) =
      .fin (S.foldl (fun acc y => min acc (idx.dist xv (nodeVec idx y))) a) := by
  intro S
  induction S with
  | nil => intro a _; rfl
  | cons y S ih =>
    intro a hpres
    have hy : (mapFind? idx.nodes y).isSome = true :=
      hpres y (List.mem_cons_self y S)
    obtain ⟨yn, hyn⟩ := Option.isSome_iff_exists.mp hy
    have hvec : nodeVec idx y = yn.vector := by simp [nodeVec, hyn]
    simp only [List.foldl_cons, hyn, FQ.minFin_fin, hvec]
    exact ih (min a (idx.dist xv yn.vector))
      (fun x hx => hpres x (List.mem_cons_of_mem y hx))

theorem scoreOf_eq_spec (idx : HNSWIndex) (query : Vec') (S : List String)
    (x : String) (xnode : Node) (hx : mapFind? idx.nodes x = some xnode)
    (hS : allPresent idx S) :
    scoreOf idx query S xnode = .fin (specScore idx query S x) := by
  have hxv : nodeVec idx x = xnode.vector := by simp [nodeVec, hx]
  cases S with
  | nil => simp [scoreOf, specScore, hxv]
  | cons y S' =>
    have hy : (mapFind? idx.nodes y).isSome = true :=
      hS y (List.mem_cons_self y S')
    obtain ⟨yn, hyn⟩ := Option.isSome_iff_exists.mp hy
    have hyv : nodeVec idx y = yn.vector := by simp [nodeVec, hyn]
    have hS' : allPresent idx S' := fun z hz => hS z (List.mem_cons_of_mem y hz)
    simp only [scoreOf, List.isEmpty_cons, if_false, Bool.false_eq_true]
    simp only [List.foldl_cons, hyn]
    have h0 : FQ.minFin FQ.pinf (idx.dist xnode.vector yn.vector) =
        .fin (idx.dist xnode.vector yn.vector) := rfl
    rw [h0, selFold_fin idx xnode.vector S' _ hS']
    simp only [specScore, List.map_cons, hxv, hyv]
    have hfold : (S'.map (fun y => idx.dist xnode.vector (nodeVec idx y))).foldl min
        (idx.dist xnode.vector yn.vector) =
        S'.foldl (fun acc y => min acc (idx.dist xnode.vector (nodeVec idx y)))
          (idx.dist xnode.vector yn.vector) := List.foldl_map _ _ _ _
    simp only [specMin, FQ.subFin, hfold]
    rfl

/-- The numeric core of `bestIdx`'s fold (scores already resolved). -/
def numStep : (Nat × FQ) → (Nat × ℚ) → (Nat × FQ) := fun best p =>
  if FQ.blt (.fin p.2) best.2 then (p.1, .fin p.2) else best

theorem numStep_lt {bq q : ℚ} (h : q < bq) (bi k : Nat) :
    numStep (bi, .fin bq) (k, q) = (k, .fin q) := by
  simp [numStep, FQ.blt, h]

theorem numStep_ge {bq q : ℚ} (h : ¬ q < bq) (bi k : Nat) :
    numStep (bi, .fin bq) (k, q) = (bi, .fin bq) := by
  simp [numStep, FQ.blt, h]

theorem numStep_pinf (bi k : Nat) (q : ℚ) :
    numStep (bi, .pinf) (k, q) = (k, .fin q) := by
  simp [numStep, FQ.blt]

theorem numFold_ge (qs : List ℚ) : ∀ (k bi : Nat) (bq : ℚ),
    (∀ q ∈ qs, bq ≤ q) →
    (enumerate k qs).foldl numStep (bi, FQ.fin bq) = (bi, FQ.fin bq) := by
  induction qs with
  | nil => intro k bi bq _; rfl
  | cons q qs ih =>
    intro k bi bq hge
    have hq : ¬ (q < bq) := not_lt.mpr (hge q (List.mem_cons_self q qs))
    simp only [enumerate, List.foldl_cons, numStep_ge hq]
    exact ih (k + 1) bi bq (fun x hx => hge x (List.mem_cons_of_mem q hx))

theorem numFold_lt (qs : List ℚ) : ∀ (k bi : Nat) (bq : ℚ),
    (∃ q ∈ qs, q < bq) →
    (enumerate k qs).foldl numStep (bi, FQ.fin bq) =
      (k + firstMinIdx qs, FQ.fin (specMin qs)) := by
  induction qs with
  | nil =>
    intro k bi bq h
    obtain ⟨q, hq, -⟩ := h
    simp at hq
  | cons q qs ih =>
    intro k bi bq hex
    by_cases hq : q < bq
    · simp only [enumerate, List.foldl_cons, numStep_lt hq]
      by_cases hqs : ∃ x ∈ qs, x < q
      · obtain ⟨x0, hx0, hx0q⟩ := hqs
        have hne : qs ≠ [] := List.ne_nil_of_mem hx0
        have hmin_lt : specMin qs < q := lt_of_le_of_lt (specMin_le qs x0 hx0) hx0q
        rw [ih (k + 1) k q ⟨x0, hx0, hx0q⟩]
        match qs, hne, hmin_lt with
        | q' :: qs', _, hmin_lt =>
          have hnle : ¬ (q ≤ specMin (q' :: qs')) := not_le.mpr hmin_lt
          simp only [firstMinIdx, hnle, if_false]
          rw [specMin_cons q (q' :: qs') (by simp), min_eq_right hmin_lt.le]
          refine Prod.ext ?_ rfl
          simp only
          omega
      · push_neg at hqs
        rw [numFold_ge qs (k + 1) k q hqs]
        match qs with
        | [] => simp [firstMinIdx, specMin]
        | q' :: qs' =>
          have hble : q ≤ specMin (q' :: qs') := by
            have hmem := specMin_mem (q' :: qs') (by simp)
            exact hqs _ hmem
          simp only [firstMinIdx, hble, if_true]
          rw [specMin_cons q (q' :: qs') (by simp), min_eq_left hble]
          simp
    · obtain ⟨x0, hx0, hx0q⟩ := hex
      have hx0' : x0 ∈ qs := by
        rcases List.mem_cons.mp hx0 with rfl | h
        · exact absurd hx0q hq
        · exact h
      have hne : qs ≠ [] := List.ne_nil_of_mem hx0'
      have hmin_lt : specMin qs < bq := lt_of_le_of_lt (specMin_le qs x0 hx0') hx0q
      simp only [enumerate, List.foldl_cons, numStep_ge hq]
      rw [ih (k + 1) bi bq ⟨x0, hx0', hx0q⟩]
      match qs, hne, hmin_lt with
      | q' :: qs', _, hmin_lt =>
        have hqgt : specMin (q' :: qs') < q := lt_of_lt_of_le hmin_lt (not_lt.mp hq)
        have hnle : ¬ (q ≤ specMin (q' :: qs')) := not_le.mpr hqgt
        simp only [firstMinIdx, hnle, if_false]
        rw [specMin_cons q (q' :: qs') (by simp), min_eq_right hqgt.le]
        refine Prod.ext ?_ rfl
        simp only
        omega

theorem bestFold_bridge (idx : HNSWIndex) (query : Vec') (S : List String)
    (hS : allPresent idx S) :
    ∀ (remaining : List String) (k : Nat) (best : Nat × FQ),
    allPresent idx remaining →
    (enumerate k remaining).foldl (fun best p =>
      match mapFind? idx.nodes p.2 with
      | some candidate_node =>
        let score := scoreOf idx query S candidate_node
        if FQ.blt score best.2 then (p.1, score) else best
      | none => best) best =
    (enumerate k (remaining.map (specScore idx query S))).foldl numStep best := by
  intro remaining
  induction remaining with
  | nil => intro k best _; rfl
  | cons r rs ih =>
    intro k best hpres
    have hr : (mapFind? idx.nodes r).isSome = true :=
      hpres r (List.mem_cons_self r rs)
    obtain ⟨rn, hrn⟩ := Option.isSome_iff_exists.mp hr
    have hscore := scoreOf_eq_spec idx query S r rn hrn hS
    simp only [enumerate, List.map_cons, List.foldl_cons, hrn, hscore]
    have hstep : (if FQ.blt (.fin (specScore idx query S r)) best.2
        then (k, FQ.fin (specScore idx query S r)) else best) =
        numStep best (k, specScore idx query S r) := rfl
    rw [hstep]
    exact ih (k + 1) _ (fun x hx => hpres x (List.mem_cons_of_mem r hx))

theorem bestIdx_eq_spec (idx : HNSWIndex) (query : Vec') (S remaining : List String)
    (hS : allPresent idx S) (hrem : allPresent idx remaining)
    (hne : remaining ≠ []) :
    bestIdx idx query S remaining =
      firstMinIdx (remaining.map (specScore idx query S)) := by
  unfold bestIdx
  rw [bestFold_bridge idx query S hS remaining 0 (0, FQ.pinf) hrem]
  match remaining, hne with
  | r :: rs, _ =>
    simp only [List.map_cons, enumerate, List.foldl_cons, numStep_pinf]
    by_cases h : ∃ x ∈ rs.map (specScore idx query S), x < specScore idx query S r
    · obtain ⟨x0, hx0, hx0q⟩ := h
      have hne2 : rs.map (specScore idx query S) ≠ [] := List.ne_nil_of_mem hx0
      rw [numFold_lt _ 1 0 _ ⟨x0, hx0, hx0q⟩]
      have hmin_lt : specMin (rs.map (specScore idx query S)) < specScore idx query S r :=
        lt_of_le_of_lt (specMin_le _ x0 hx0) hx0q
      match hrs : rs.map (specScore idx query S), hne2, hmin_lt with
      | q' :: qs', _, hmin_lt =>
        have hnle : ¬ (specScore idx query S r ≤ specMin (q' :: qs')) :=
          not_le.mpr hmin_lt
        simp only [firstMinIdx, hnle, if_false]
        omega
    · push_neg at h
      rw [numFold_ge _ 1 0 _ h]
      match hrs : rs.map (specScore idx query S) with
      | [] => simp [firstMinIdx]
      | q' :: qs' =>
        have hble : specScore idx query S r ≤ specMin (q' :: qs') := by
          have hmem : specMin (q' :: qs') ∈ rs.map (specScore idx query S) := by
            rw [hrs]; exact specMin_mem (q' :: qs') (by simp)
          exact h _ hmem
        simp only [firstMinIdx, hble, if_true]

theorem selectLoop_eq_spec (idx : HNSWIndex) (query : Vec') (m : Nat) :
    ∀ (fuel : Nat) (S C : List String), allPresent idx S → allPresent idx C →
    selectLoop idx query m fuel S C = specSelectLoop idx query m fuel S C := by
  intro fuel
  induction fuel with
  | zero => intro S C _ _; rfl
  | succ fuel ih =>
    intro S C hS hC
    by_cases hcond : S.length < m ∧ C ≠ []
    · rw [selectLoop, specSelectLoop, if_pos hcond, if_pos hcond]
      have hbi := bestIdx_eq_spec idx query S C hS hC hcond.2
      rw [hbi]
      have hmapne : C.map (specScore idx query S) ≠ [] := by
        intro hcontra
        exact hcond.2 (List.map_eq_nil_iff.mp hcontra)
      have hi : firstMinIdx (C.map (specScore idx query S)) < C.length := by
        have h2 := firstMinIdx_lt_length (C.map (specScore idx query S)) hmapne
        simpa using h2
      have hpick : C.getD (firstMinIdx (C.map (specScore idx query S))) "" ∈ C := by
        rw [List.getD_eq_getElem C "" hi]
        exact List.getElem_mem hi
      apply ih
      · intro x hx
        rcases List.mem_append.mp hx with hx | hx
        · exact hS x hx
        · rw [List.mem_singleton.mp hx]
          exact hC _ hpick
      · intro x hx
        exact hC x ((List.eraseIdx_sublist C _).subset hx)
    · rw [selectLoop, specSelectLoop, if_neg hcond, if_neg hcond]

/-- C5: under presence of every candidate in the node table,
`select_neighbors_heuristic` computes exactly the spec's selection:
identity when `|C| ≤ m`, else the iterative pick of the score-minimal
candidate (score `d(q,x)` for empty `S`, else
`d(q,x) − min_{y ∈ S} d(x,y)`), ties resolved to the earliest occurrence
in `C`. -/
theorem C5_select_neighbors_heuristic_spec (idx : HNSWIndex) (query : Vec')
    (C : List String) (m : Nat) (hC : allPresent idx C) :
    select_neighbors_heuristic idx query C m = specSelect idx query C m := by
  unfold select_neighbors_heuristic specSelect
  by_cases h : C.length ≤ m
  · rw [if_pos h, if_pos h]
  · rw [if_neg h, if_neg h]
    exact selectLoop_eq_spec idx query m C.length [] C
      (fun x hx => absurd hx (List.not_mem_nil x)) hC

/-- A three-node index for the selection witness; with query `[1]` the
heuristic first picks `"a"` (closest), then hits an exact score tie
between `"b"` and `"c"` resolved to `"b"` (earlier in `C`). -/
def selIdx : HNSWIndex :=
  { nodes :=
      [("a", { id := "a", vector := [0], connections := [[]], level := 0 }),
       ("b", { id := "b", vector := [4], connections := [[]], level := 0 }),
       ("c", { id := "c", vector := [5], connections := [[]], level := 0 })],
    entry_point := some "a", max_level := 0,
    m := 16, ef_construction := 200, dist := manhattan_distance }

unseal Rat.add Rat.sub Rat.mul in
/-- Witness for C5: on `selIdx` with `C = ["b","c","a"]` and `m = 2` the
heuristic returns `["a","b"]` and agrees with the spec-side selection. -/
theorem C5_select_neighbors_heuristic_spec_witness :
    allPresent selIdx ["b", "c", "a"] ∧
    select_neighbors_heuristic selIdx [1] ["b", "c", "a"] 2 = ["a", "b"] ∧
    select_neighbors_heuristic selIdx [1] ["b", "c", "a"] 2 =
      specSelect selIdx [1] ["b", "c", "a"] 2 := by
  have hp : allPresent selIdx ["b", "c", "a"] := by
    intro x hx
    fin_cases hx <;> decide
  exact ⟨hp, by decide,
    C5_select_neighbors_heuristic_spec selIdx [1] ["b", "c", "a"] 2 hp⟩

end Solaris
